import Mathlib

/-!
Verification model of the mliev-push Go client library.

The file embeds the library's request-signing pipeline (sortParams and
generateSignature from the signer source file), the error taxonomy
(errors.go) and the dispatcher (doRequest, SendMessage, SendBatch,
QueryTask) as executable Lean definitions, and proves the specified
properties about them.
-/

namespace MlievPush

/-! JSON values.  A Go value of type map string to interface, as produced
by decoding a JSON document, is modeled by the mutual inductive below.
Numbers are modeled as integers: every numeric value in this library's
payloads is integral, and Go renders an integral float64 with no
fractional part, so integer rendering coincides with Go's output. -/

mutual

inductive Json where
  | null : Json
  | bool (b : Bool) : Json
  | num (n : Int) : Json
  | str (s : String) : Json
  | arr (xs : JsonList) : Json
  | obj (fs : JsonFields) : Json

inductive JsonList where
  | nil : JsonList
  | cons (hd : Json) (tl : JsonList) : JsonList

inductive JsonFields where
  | nil : JsonFields
  | cons (k : String) (v : Json) (tl : JsonFields) : JsonFields

end

deriving instance DecidableEq for Json

/-- Converts an association list into a JsonFields value. -/
def fieldsOfList : List (String × Json) → JsonFields
  | [] => .nil
  | (k, v) :: t => .cons k v (fieldsOfList t)

/-- Converts a JsonFields value back into an association list. -/
def fieldsToList : JsonFields → List (String × Json)
  | .nil => []
  | .cons k v t => (k, v) :: fieldsToList t

/-- A JSON object built from an association list of fields. -/
def objOf (l : List (String × Json)) : Json := Json.obj (fieldsOfList l)

/-- The hexadecimal digit character for a value below 16, lowercase. -/
def hexDigitChar (n : Nat) : Char :=
  if n < 10 then Char.ofNat (48 + n) else Char.ofNat (87 + n)

/-- Escaping of a character inside a JSON string literal, as Go
encoding/json performs it with its default HTML escaping: quote and
backslash get a backslash escape, newline, carriage return and tab get
their short escapes, other control characters and the HTML-sensitive
characters get a u-escape, as do the line and paragraph separators. -/
def escapeChar (c : Char) : List Char :=
  if c = '"' then ['\\', '"']
  else if c = '\\' then ['\\', '\\']
  else if c = '\n' then ['\\', 'n']
  else if c = '\r' then ['\\', 'r']
  else if c = '\t' then ['\\', 't']
  else if c = '<' ∨ c = '>' ∨ c = '&' ∨ c.toNat < 32 then
    ['\\', 'u', '0', '0', hexDigitChar (c.toNat / 16 % 16), hexDigitChar (c.toNat % 16)]
  else if c.toNat = 8232 ∨ c.toNat = 8233 then
    ['\\', 'u', '2', '0', '2', hexDigitChar (c.toNat % 16)]
  else [c]

/-- A JSON string literal: the escaped characters between double quotes. -/
def quoteString (s : String) : String :=
  "\"" ++ String.mk ((s.data.map escapeChar).flatten) ++ "\""

/-- Decimal digits of a natural number, least significant first; the
first argument is fuel, always supplied as at least one more than the
number of divisions by ten needed. -/
def natDigitsRevGo (fuel n : Nat) : List Char :=
  match fuel with
  | 0 => []
  | f + 1 =>
    if n < 10 then [Char.ofNat (48 + n)]
    else Char.ofNat (48 + n % 10) :: natDigitsRevGo f (n / 10)

/-- Decimal representation of a natural number. -/
def natRepr (n : Nat) : String := String.mk (natDigitsRevGo (n + 1) n).reverse

/-- Decimal representation of an integer, matching Go's rendering of an
integral float64. -/
def intRepr (n : Int) : String :=
  if n < 0 then "-" ++ natRepr n.natAbs else natRepr n.natAbs

/-- Lexicographic comparison of character lists by code point,
non-strict.  This is the order Go's byte-wise string comparison induces
on valid UTF-8 strings, since UTF-8 preserves code-point order. -/
def charsLE : List Char → List Char → Bool
  | [], _ => true
  | _ :: _, [] => false
  | a :: as, b :: bs => if a < b then true else if b < a then false else charsLE as bs

/-- Lexicographic comparison of character lists by code point, strict. -/
def charsLT : List Char → List Char → Bool
  | [], [] => false
  | [], _ :: _ => true
  | _ :: _, [] => false
  | a :: as, b :: bs => if a < b then true else if b < a then false else charsLT as bs

/-- Code-point order on strings, non-strict. -/
def strLE (a b : String) : Prop := charsLE a.data b.data = true

/-- Code-point order on strings, strict. -/
def strLT (a b : String) : Prop := charsLT a.data b.data = true

instance : DecidableRel strLE :=
  fun a b => inferInstanceAs (Decidable (charsLE a.data b.data = true))

instance : DecidableRel strLT :=
  fun a b => inferInstanceAs (Decidable (charsLT a.data b.data = true))

theorem charsLE_total (a b : List Char) : charsLE a b = true ∨ charsLE b a = true := by
  induction a generalizing b with
  | nil => left; rfl
  | cons x xs ih =>
    cases b with
    | nil => right; rfl
    | cons y ys =>
      rcases lt_trichotomy x y with h | h | h
      · left; simp [charsLE, h]
      · subst h
        rcases ih ys with h2 | h2
        · left; simp [charsLE, lt_irrefl, h2]
        · right; simp [charsLE, lt_irrefl, h2]
      · right; simp [charsLE, h]

theorem charsLE_trans {a b c : List Char} (h1 : charsLE a b = true)
    (h2 : charsLE b c = true) : charsLE a c = true := by
  induction a generalizing b c with
  | nil => rfl
  | cons x xs ih =>
    cases b with
    | nil => simp [charsLE] at h1
    | cons y ys =>
      cases c with
      | nil => simp [charsLE] at h2
      | cons z zs =>
        rcases lt_trichotomy x y with hxy | hxy | hxy
        · rcases lt_trichotomy y z with hyz | hyz | hyz
          · simp [charsLE, lt_trans hxy hyz]
          · subst hyz; simp [charsLE, hxy]
          · simp [charsLE, hyz, lt_asymm hyz] at h2
        · subst hxy
          rcases lt_trichotomy x z with hxz | hxz | hxz
          · simp [charsLE, hxz]
          · subst hxz
            simp only [charsLE, lt_irrefl, if_false] at h1 h2 ⊢
            exact ih h1 h2
          · simp [charsLE, hxz, lt_asymm hxz] at h2
        · simp [charsLE, hxy, lt_asymm hxy] at h1

theorem charsLE_antisymm {a b : List Char} (h1 : charsLE a b = true)
    (h2 : charsLE b a = true) : a = b := by
  induction a generalizing b with
  | nil =>
    cases b with
    | nil => rfl
    | cons y ys => simp [charsLE] at h2
  | cons x xs ih =>
    cases b with
    | nil => simp [charsLE] at h1
    | cons y ys =>
      rcases lt_trichotomy x y with h | h | h
      · simp [charsLE, h, lt_asymm h] at h2
      · subst h
        simp only [charsLE, lt_irrefl, if_false] at h1 h2
        exact congrArg (x :: ·) (ih h1 h2)
      · simp [charsLE, h, lt_asymm h] at h1

theorem charsLT_asymm {a b : List Char} (h1 : charsLT a b = true)
    (h2 : charsLT b a = true) : False := by
  induction a generalizing b with
  | nil => cases b <;> simp [charsLT] at h1 h2
  | cons x xs ih =>
    cases b with
    | nil => simp [charsLT] at h1
    | cons y ys =>
      rcases lt_trichotomy x y with h | h | h
      · simp [charsLT, h, lt_asymm h] at h2
      · subst h
        simp only [charsLT, lt_irrefl, if_false] at h1 h2
        exact ih h1 h2
      · simp [charsLT, h, lt_asymm h] at h1

theorem charsLT_of_le_of_ne {a b : List Char} (h1 : charsLE a b = true)
    (h2 : a ≠ b) : charsLT a b = true := by
  induction a generalizing b with
  | nil =>
    cases b with
    | nil => exact absurd rfl h2
    | cons y ys => rfl
  | cons x xs ih =>
    cases b with
    | nil => simp [charsLE] at h1
    | cons y ys =>
      rcases lt_trichotomy x y with h | h | h
      · simp [charsLT, h]
      · subst h
        simp only [charsLE, lt_irrefl, if_false] at h1
        simp only [charsLT, lt_irrefl, if_false]
        exact ih h1 (fun he => h2 (congrArg (x :: ·) he))
      · simp [charsLE, h, lt_asymm h] at h1

/-- Key order on pairs whose first component is a string. -/
def keyLE {β : Type} (a b : String × β) : Prop := strLE a.1 b.1

/-- Strict key order on pairs whose first component is a string. -/
def keyLT {β : Type} (a b : String × β) : Prop := strLT a.1 b.1

instance {β : Type} : DecidableRel (@keyLE β) :=
  fun a b => inferInstanceAs (Decidable (strLE a.1 b.1))

instance {β : Type} : DecidableRel (@keyLT β) :=
  fun a b => inferInstanceAs (Decidable (strLT a.1 b.1))

instance {β : Type} : IsTotal (String × β) keyLE :=
  ⟨fun a b => charsLE_total a.1.data b.1.data⟩

instance {β : Type} : IsTrans (String × β) keyLE :=
  ⟨fun _ _ _ h1 h2 => charsLE_trans h1 h2⟩

instance {β : Type} : IsAntisymm (String × β) keyLT :=
  ⟨fun _ _ h1 h2 => (charsLT_asymm h1 h2).elim⟩

/-- Sorting a list of fields by key, model of the ordering Go's JSON
encoder applies to map keys before emitting an object. -/
def sortFields {β : Type} (fs : List (String × β)) : List (String × β) :=
  List.insertionSort keyLE fs

mutual

/-- Serialization of a JSON value exactly as Go encoding/json emits it:
no inserted whitespace, object keys in ascending string order (the
encoder sorts the keys of every map at every nesting level). -/
def goMarshal : Json → String
  | .null => "null"
  | .bool b => cond b "true" "false"
  | .num n => intRepr n
  | .str s => quoteString s
  | .arr xs => "[" ++ String.intercalate "," (marshalElems xs) ++ "]"
  | .obj fs =>
    "\x7b" ++
      String.intercalate ","
        ((sortFields (marshalFields fs)).map (fun kv => quoteString kv.1 ++ ":" ++ kv.2)) ++
      "\x7d"

/-- Serializations of the elements of a JSON array, in order. -/
def marshalElems : JsonList → List String
  | .nil => []
  | .cons x t => goMarshal x :: marshalElems t

/-- Pairs of key and serialized value for the fields of a JSON object. -/
def marshalFields : JsonFields → List (String × String)
  | .nil => []
  | .cons k v t => (k, goMarshal v) :: marshalFields t

end

/-- Indexing a Go map modeled as an association list: the value of the
first entry with the given key, or null (the zero interface value, which
marshals as null) when the key is absent. -/
def mapGet (params : List (String × Json)) (k : String) : Json :=
  match params.find? (fun kv => kv.1 == k) with
  | some kv => kv.2
  | none => Json.null

/-- The keys of the parameter map in ascending order, the model of the
key extraction and sort.Strings call in sortParams. -/
def sortedKeys (params : List (String × Json)) : List String :=
  List.insertionSort strLE (params.map Prod.fst)

/-- The rebuilt map of sortParams: for each key in sorted order, the
entry of the original map under that key. -/
def sortedEntries (params : List (String × Json)) : List (String × Json) :=
  (sortedKeys params).map (fun k => (k, mapGet params k))

/-- Translation of sortParams from the signer source file: an empty or
absent map yields the empty string; otherwise the keys are sorted, a map
is rebuilt in that key order, and the result is its JSON serialization. -/
def sortParams (params : List (String × Json)) : String :=
  if params.length = 0 then ""
  else goMarshal (objOf (sortedEntries params))

/-! SHA-256, HMAC and hexadecimal encoding: the models of the Go
standard library crypto routines called by generateSignature.  Bytes are
naturals below 256, 32-bit words are naturals reduced modulo 2 to the 32
at every arithmetic step. -/

/-- Reduction modulo 2 to the 32. -/
def w32 (n : Nat) : Nat := n % 4294967296

/-- Right rotation of a 32-bit word by n positions. -/
def rotr32 (n x : Nat) : Nat := w32 ((x >>> n) ||| (x <<< (32 - n)))

/-- The SHA-256 choice function. -/
def shaCh (x y z : Nat) : Nat := (x &&& y) ^^^ ((x ^^^ 4294967295) &&& z)

/-- The SHA-256 majority function. -/
def shaMaj (x y z : Nat) : Nat := (x &&& y) ^^^ (x &&& z) ^^^ (y &&& z)

/-- The SHA-256 big sigma 0 function. -/
def bigSigma0 (x : Nat) : Nat := rotr32 2 x ^^^ rotr32 13 x ^^^ rotr32 22 x

/-- The SHA-256 big sigma 1 function. -/
def bigSigma1 (x : Nat) : Nat := rotr32 6 x ^^^ rotr32 11 x ^^^ rotr32 25 x

/-- The SHA-256 small sigma 0 function. -/
def smallSigma0 (x : Nat) : Nat := rotr32 7 x ^^^ rotr32 18 x ^^^ (x >>> 3)

/-- The SHA-256 small sigma 1 function. -/
def smallSigma1 (x : Nat) : Nat := rotr32 17 x ^^^ rotr32 19 x ^^^ (x >>> 10)

/-- The 64 SHA-256 round constants. -/
def shaK : List Nat :=
  [1116352408, 1899447441, 3049323471, 3921009573, 961987163,
   1508970993, 2453635748, 2870763221, 3624381080, 310598401,
   607225278, 1426881987, 1925078388, 2162078206, 2614888103,
   3248222580, 3835390401, 4022224774, 264347078, 604807628,
   770255983, 1249150122, 1555081692, 1996064986, 2554220882,
   2821834349, 2952996808, 3210313671, 3336571891, 3584528711,
   113926993, 338241895, 666307205, 773529912, 1294757372,
   1396182291, 1695183700, 1986661051, 2177026350, 2456956037,
   2730485921, 2820302411, 3259730800, 3345764771, 3516065817,
   3600352804, 4094571909, 275423344, 430227734, 506948616,
   659060556, 883997877, 958139571, 1322822218, 1537002063,
   1747873779, 1955562222, 2024104815, 2227730452, 2361852424,
   2428436474, 2756734187, 3204031479, 3329325298]

/-- The working state of the SHA-256 compression function: eight 32-bit
registers. -/
structure ShaState where
  a : Nat
  b : Nat
  c : Nat
  d : Nat
  e : Nat
  f : Nat
  g : Nat
  h : Nat

/-- One round of the SHA-256 compression function. -/
def shaRound (s : ShaState) (k w : Nat) : ShaState :=
  let t1 := w32 (s.h + bigSigma1 s.e + shaCh s.e s.f s.g + k + w)
  let t2 := w32 (bigSigma0 s.a + shaMaj s.a s.b s.c)
  ⟨w32 (t1 + t2), s.a, s.b, s.c, w32 (s.d + t1), s.e, s.f, s.g⟩

/-- Appends one word to the message schedule from the four reference
words behind the end of the list. -/
def scheduleStep (ws : List Nat) : List Nat :=
  let n := ws.length
  ws ++ [w32 (smallSigma1 (ws.getD (n - 2) 0) + ws.getD (n - 7) 0 +
              smallSigma0 (ws.getD (n - 15) 0) + ws.getD (n - 16) 0)]

/-- Iterates the schedule extension a given number of times. -/
def extendSchedule : Nat → List Nat → List Nat
  | 0, ws => ws
  | c + 1, ws => extendSchedule c (scheduleStep ws)

/-- The 64-word message schedule of one 16-word block. -/
def fullSchedule (block : List Nat) : List Nat := extendSchedule 48 block

/-- Runs the 64 compression rounds, consuming the round constants and
the message schedule in lockstep. -/
def shaCompressWords : List Nat → List Nat → ShaState → ShaState
  | k :: ks, w :: ws, s => shaCompressWords ks ws (shaRound s k w)
  | _, _, s => s

/-- Processes one 16-word block: compresses and adds the result onto the
incoming state. -/
def shaProcessBlock (s : ShaState) (block : List Nat) : ShaState :=
  let t := shaCompressWords shaK (fullSchedule block) s
  ⟨w32 (s.a + t.a), w32 (s.b + t.b), w32 (s.c + t.c), w32 (s.d + t.d),
   w32 (s.e + t.e), w32 (s.f + t.f), w32 (s.g + t.g), w32 (s.h + t.h)⟩

/-- The eight big-endian length bytes closing the SHA-256 padding,
holding the bit length of the message. -/
def lengthBytes (len : Nat) : List Nat :=
  let bits := 8 * len
  [bits / 72057594037927936 % 256, bits / 281474976710656 % 256,
   bits / 1099511627776 % 256, bits / 4294967296 % 256,
   bits / 16777216 % 256, bits / 65536 % 256, bits / 256 % 256, bits % 256]

/-- SHA-256 padding: the byte 128, zeros up to 56 modulo 64, then the
bit length in eight big-endian bytes. -/
def padMessage (msg : List Nat) : List Nat :=
  msg ++ 128 :: List.replicate ((119 - msg.length % 64) % 64) 0 ++ lengthBytes msg.length

/-- Groups a byte list into big-endian 32-bit words. -/
def bytesToWords : List Nat → List Nat
  | b0 :: b1 :: b2 :: b3 :: rest =>
    (b0 * 16777216 + b1 * 65536 + b2 * 256 + b3) :: bytesToWords rest
  | _ => []

/-- Folds the compression over the word stream, one 16-word block at a
time. -/
def processWords : ShaState → List Nat → ShaState
  | s, w0 :: w1 :: w2 :: w3 :: w4 :: w5 :: w6 :: w7 ::
       w8 :: w9 :: w10 :: w11 :: w12 :: w13 :: w14 :: w15 :: rest =>
    processWords
      (shaProcessBlock s [w0, w1, w2, w3, w4, w5, w6, w7, w8, w9, w10, w11, w12, w13, w14, w15])
      rest
  | s, _ => s

/-- The SHA-256 initial hash state. -/
def initialShaState : ShaState :=
  ⟨1779033703, 3144134277, 1013904242, 2773480762,
   1359893119, 2600822924, 528734635, 1541459225⟩

/-- The four big-endian bytes of a 32-bit word. -/
def wordBytes (w : Nat) : List Nat :=
  [w / 16777216 % 256, w / 65536 % 256, w / 256 % 256, w % 256]

/-- SHA-256 of a byte list, as a list of 32 bytes. -/
def sha256 (msg : List Nat) : List Nat :=
  let s := processWords initialShaState (bytesToWords (padMessage msg))
  wordBytes s.a ++ wordBytes s.b ++ wordBytes s.c ++ wordBytes s.d ++
  wordBytes s.e ++ wordBytes s.f ++ wordBytes s.g ++ wordBytes s.h

/-- HMAC with SHA-256, block size 64 bytes: keys longer than a block are
hashed first, the key is zero-padded to the block size, and the inner
and outer pads are 54 and 92. -/
def hmacSha256 (key msg : List Nat) : List Nat :=
  let k0 := if 64 < key.length then sha256 key else key
  let kp := k0 ++ List.replicate (64 - k0.length) 0
  let inner := sha256 (kp.map (fun b => b ^^^ 54) ++ msg)
  sha256 (kp.map (fun b => b ^^^ 92) ++ inner)

/-- The lowercase hexadecimal characters of a byte list, two per byte,
the model of hex.EncodeToString. -/
def hexChars : List Nat → List Char
  | [] => []
  | b :: rest => hexDigitChar (b / 16) :: hexDigitChar (b % 16) :: hexChars rest

/-- Lowercase hexadecimal encoding of a byte list. -/
def hexEncode (bs : List Nat) : String := String.mk (hexChars bs)

/-- The UTF-8 bytes of one character. -/
def utf8Bytes (c : Char) : List Nat :=
  let n := c.toNat
  if n < 128 then [n]
  else if n < 2048 then [192 + n / 64, 128 + n % 64]
  else if n < 65536 then [224 + n / 4096, 128 + n / 64 % 64, 128 + n % 64]
  else [240 + n / 262144, 128 + n / 4096 % 64, 128 + n / 64 % 64, 128 + n % 64]

/-- The UTF-8 bytes of a string, the model of a Go byte-slice conversion. -/
def strBytes (s : String) : List Nat := (s.data.map utf8Bytes).flatten

/-- Translation of generateSignature from the signer source file:
canonicalize the parameters, concatenate method, path, canonical
parameters, timestamp and nonce without delimiters, then HMAC-SHA256
under the application secret and encode in lowercase hexadecimal. -/
def generateSignature (method path : String) (params : List (String × Json))
    (timestamp nonce appSecret : String) : String :=
  let sortedParams := sortParams params
  let signContent := method ++ path ++ sortedParams ++ timestamp ++ nonce
  hexEncode (hmacSha256 (strBytes appSecret) (strBytes signContent))

end MlievPush



namespace MlievPush

/-! The error taxonomy of the dispatcher, from errors.go and the error
paths of doRequest.  Go reports errors through the error interface and
distinguishes the business case by a runtime type assertion on APIError;
the embedding models the error values a call can produce as a closed
inductive and the type assertion as a match on the apiError case. -/

inductive GoError where
  | unmarshalMapError : GoError
  | transportError : GoError
  | readBodyError : GoError
  | unmarshalResponseError : GoError
  | apiError (code : Int) (message : String) : GoError
  | unmarshalDataError : GoError
deriving DecidableEq

/-- Translation of IsAPIError from errors.go: the runtime type assertion
succeeds exactly on values constructed by NewAPIError. -/
def isAPIError : GoError → Bool
  | .apiError _ _ => true
  | _ => false

/-- The static error-code lookup table ErrorCodeMessages from errors.go,
with the constant names resolved to their numeric values. -/
def errorCodeMessages : List (Int × String) :=
  [(10001, "请求参数错误"), (10002, "JSON格式错误"), (10003, "缺少必填参数"),
   (10004, "参数值非法"), (10005, "接收者格式错误"), (10006, "模板参数错误"),
   (20001, "未授权"), (20002, "无效的AppID"), (20003, "签名验证失败"),
   (20004, "时间戳无效"), (20005, "IP不在白名单"), (20006, "应用已禁用"),
   (30001, "超出速率限制"), (30002, "超出配额限制"), (30003, "通道不存在"),
   (30004, "通道已禁用"), (30005, "模板不存在"), (30006, "无可用通道"),
   (30007, "任务不存在"), (30008, "批量任务不存在"),
   (40001, "内部错误"), (40002, "数据库错误"), (40003, "Redis错误"),
   (40004, "队列错误"), (40005, "服务商错误"), (40006, "网络超时"),
   (40007, "熔断器打开")]

/-- Translation of GetErrorMessage from errors.go: the table entry when
the code is a key, the generic unknown-error text otherwise. -/
def GetErrorMessage (code : Int) : String :=
  match errorCodeMessages.lookup code with
  | some msg => msg
  | none => "未知错误"

/-- The decoded response envelope, the Response struct of types.go: a
status code, a message, and the raw JSON of the data field, which is
absent when the response carried no data key. -/
structure Response where
  code : Int
  message : String
  data : Option Json
deriving DecidableEq

/-- The value of the first field with the given key, if any. -/
def fieldGet (fs : JsonFields) (k : String) : Option Json :=
  ((fieldsToList fs).find? (fun kv => kv.1 == k)).map Prod.snd

/-- Decoding of a JSON value into a Go int struct field: an absent or
null field leaves the zero value, a number is taken as is, anything else
is a type error. -/
def intFieldD (fs : JsonFields) (k : String) : Option Int :=
  match fieldGet fs k with
  | none => some 0
  | some .null => some 0
  | some (.num n) => some n
  | some _ => none

/-- Decoding of a JSON value into a Go string struct field. -/
def strFieldD (fs : JsonFields) (k : String) : Option String :=
  match fieldGet fs k with
  | none => some ""
  | some .null => some ""
  | some (.str s) => some s
  | some _ => none

/-- Decoding of a response body into the Response envelope, the model of
the json.Unmarshal call in doRequest: the body must be a JSON object or
null, the code field must be numeric and the message field a string when
present, and the data field is kept raw. -/
def decodeResponse : Json → Option Response
  | .obj fs =>
    (intFieldD fs "code").bind fun c =>
      (strFieldD fs "message").map fun m =>
        { code := c, message := m, data := fieldGet fs "data" }
  | .null => some { code := 0, message := "", data := none }
  | _ => none

/-- The SendMessageData result struct of types.go. -/
structure SendMessageData where
  task_id : String
  status : String
  created_at : String
deriving DecidableEq

/-- Decoding of the raw data field into SendMessageData; an absent data
field is a nil raw message, which json.Unmarshal rejects. -/
def decodeSendMessageData : Option Json → Option SendMessageData
  | some (.obj fs) =>
    (strFieldD fs "task_id").bind fun t =>
      (strFieldD fs "status").bind fun s =>
        (strFieldD fs "created_at").map fun c => ⟨t, s, c⟩
  | some .null => some ⟨"", "", ""⟩
  | _ => none

/-- The SendBatchData result struct of types.go. -/
structure SendBatchData where
  batch_id : String
  total_count : Int
  success_count : Int
  failed_count : Int
  created_at : String
deriving DecidableEq

/-- Decoding of the raw data field into SendBatchData. -/
def decodeSendBatchData : Option Json → Option SendBatchData
  | some (.obj fs) =>
    (strFieldD fs "batch_id").bind fun b =>
      (intFieldD fs "total_count").bind fun t =>
        (intFieldD fs "success_count").bind fun s =>
          (intFieldD fs "failed_count").bind fun f =>
            (strFieldD fs "created_at").map fun c => ⟨b, t, s, f, c⟩
  | some .null => some ⟨"", 0, 0, 0, ""⟩
  | _ => none

/-- The QueryTaskData result struct of types.go. -/
structure QueryTaskData where
  id : Int
  task_id : String
  app_id : String
  channel_id : Int
  message_type : String
  receiver : String
  content : String
  status : String
  callback_status : String
  retry_count : Int
  max_retry : Int
  created_at : String
  updated_at : String
deriving DecidableEq

/-- Decoding of the raw data field into QueryTaskData. -/
def decodeQueryTaskData : Option Json → Option QueryTaskData
  | some (.obj fs) =>
    (intFieldD fs "id").bind fun i =>
      (strFieldD fs "task_id").bind fun ti =>
        (strFieldD fs "app_id").bind fun ai =>
          (intFieldD fs "channel_id").bind fun ci =>
            (strFieldD fs "message_type").bind fun mt =>
              (strFieldD fs "receiver").bind fun re =>
                (strFieldD fs "content").bind fun co =>
                  (strFieldD fs "status").bind fun st =>
                    (strFieldD fs "callback_status").bind fun cs =>
                      (intFieldD fs "retry_count").bind fun rc =>
                        (intFieldD fs "max_retry").bind fun mr =>
                          (strFieldD fs "created_at").bind fun ca =>
                            (strFieldD fs "updated_at").map fun ua =>
                              ⟨i, ti, ai, ci, mt, re, co, st, cs, rc, mr, ca, ua⟩
  | some .null => some ⟨0, "", "", 0, "", "", "", "", "", 0, 0, "", ""⟩
  | _ => none

/-- The client value: base URL and credentials, as in the Client struct. -/
structure Client where
  baseURL : String
  appID : String
  appSecret : String
deriving DecidableEq

/-- The observable outbound HTTP request doRequest builds: method, full
URL, optional body, the content-type header when set, and the four
authentication headers. -/
structure HttpRequest where
  method : String
  url : String
  body : Option String
  contentType : Option String
  appId : String
  timestamp : String
  nonce : String
  signature : String
deriving DecidableEq

/-- The outcome of the network exchange for one call, the model of the
external world doRequest talks to: a transport failure, a failure while
reading the response body, a response body that is not valid JSON, or a
successfully parsed JSON response body. -/
inductive ExchangeOutcome where
  | transportError : ExchangeOutcome
  | readBodyError : ExchangeOutcome
  | badBody : ExchangeOutcome
  | response (body : Json) : ExchangeOutcome
deriving DecidableEq

/-- The parameter map doRequest derives from the marshaled request data
by decoding it back into a generic map: the fields when the payload is
an object, the nil map when it is null, and a decode error otherwise. -/
def paramsOfBody : Json → Option (List (String × Json))
  | .obj fs => some (fieldsToList fs)
  | .null => some []
  | _ => none

/-- The request doRequest builds: URL is base plus path, the body reader
is attached only when the marshaled bytes are non-empty, the
content-type header is set exactly for the POST method, and the four
authentication headers carry the app id, timestamp, nonce and computed
signature. -/
def buildRequest (c : Client) (method path bodyBytes : String)
    (params : List (String × Json)) (timestamp nonce : String) : HttpRequest :=
  { method := method
    url := c.baseURL ++ path
    body := if 0 < bodyBytes.length then some bodyBytes else none
    contentType := if method == "POST" then some "application/json" else none
    appId := c.appID
    timestamp := timestamp
    nonce := nonce
    signature := generateSignature method path params timestamp nonce c.appSecret }

/-- The send-and-decode half of doRequest, from the request build to the
envelope check: transport, body-read and envelope-decode failures give
the corresponding errors; a decoded envelope with nonzero code gives the
envelope together with an apiError holding its code and message, and a
zero code gives the envelope with no error. -/
def doRequestSend (c : Client) (method path bodyBytes : String)
    (params : List (String × Json)) (timestamp nonce : String)
    (outcome : ExchangeOutcome) : Option HttpRequest × Option Response × Option GoError :=
  let req := buildRequest c method path bodyBytes params timestamp nonce
  match outcome with
  | .transportError => (some req, none, some .transportError)
  | .readBodyError => (some req, none, some .readBodyError)
  | .badBody => (some req, none, some .unmarshalResponseError)
  | .response body =>
    match decodeResponse body with
    | none => (some req, none, some .unmarshalResponseError)
    | some result =>
      if result.code ≠ 0 then (some req, some result, some (.apiError result.code result.message))
      else (some req, some result, none)

/-- Translation of doRequest: timestamp and nonce arrive as parameters
standing for the wall clock and the UUID source; the exchange outcome
parameter stands for the HTTP round trip.  The first component is the
built request when the call got as far as building one, kept observable
for the header properties; Go returns only the other two components. -/
def doRequest (c : Client) (method path : String) (reqData : Option Json)
    (timestamp nonce : String) (outcome : ExchangeOutcome) :
    Option HttpRequest × Option Response × Option GoError :=
  match reqData with
  | some j =>
    match paramsOfBody j with
    | none => (none, none, some .unmarshalMapError)
    | some params => doRequestSend c method path (goMarshal j) params timestamp nonce outcome
  | none => doRequestSend c method path "" [] timestamp nonce outcome

/-- Translation of SendMessage: a POST of the payload to the messages
path; any doRequest error is returned with a nil result, otherwise the
data field is decoded into SendMessageData. -/
def SendMessage (c : Client) (reqData : Json) (timestamp nonce : String)
    (outcome : ExchangeOutcome) : Option SendMessageData × Option GoError :=
  match doRequest c "POST" "/api/v1/messages" (some reqData) timestamp nonce outcome with
  | (_, _, some err) => (none, some err)
  | (_, some resp, none) =>
    match decodeSendMessageData resp.data with
    | none => (none, some .unmarshalDataError)
    | some d => (some d, none)
  | (_, none, none) => (none, none)

/-- Translation of SendBatch: a POST of the payload to the batch path. -/
def SendBatch (c : Client) (reqData : Json) (timestamp nonce : String)
    (outcome : ExchangeOutcome) : Option SendBatchData × Option GoError :=
  match doRequest c "POST" "/api/v1/messages/batch" (some reqData) timestamp nonce outcome with
  | (_, _, some err) => (none, some err)
  | (_, some resp, none) =>
    match decodeSendBatchData resp.data with
    | none => (none, some .unmarshalDataError)
    | some d => (some d, none)
  | (_, none, none) => (none, none)

/-- Translation of QueryTask: a GET with no payload, the task id
appended verbatim to the messages path. -/
def QueryTask (c : Client) (taskID : String) (timestamp nonce : String)
    (outcome : ExchangeOutcome) : Option QueryTaskData × Option GoError :=
  match doRequest c "GET" ("/api/v1/messages/" ++ taskID) none timestamp nonce outcome with
  | (_, _, some err) => (none, some err)
  | (_, some resp, none) =>
    match decodeQueryTaskData resp.data with
    | none => (none, some .unmarshalDataError)
    | some d => (some d, none)
  | (_, none, none) => (none, none)

end MlievPush

namespace MlievPush

/-! Lemmas about canonicalization. -/

theorem marshalFields_fieldsOfList (l : List (String × Json)) :
    marshalFields (fieldsOfList l) = l.map (fun kv => (kv.1, goMarshal kv.2)) := by
  induction l with
  | nil => rfl
  | cons kv t ih =>
    obtain ⟨k, v⟩ := kv
    simp [fieldsOfList, marshalFields, ih]

theorem goMarshal_objOf (l : List (String × Json)) :
    goMarshal (objOf l) =
      "\x7b" ++
        String.intercalate ","
          ((sortFields (l.map (fun kv => (kv.1, goMarshal kv.2)))).map
            (fun kv => quoteString kv.1 ++ ":" ++ kv.2)) ++
      "\x7d" := by
  simp [objOf, goMarshal, marshalFields_fieldsOfList]

theorem entries_of_keys {l : List (String × Json)} (hn : (l.map Prod.fst).Nodup) :
    (l.map Prod.fst).map (fun k => (k, mapGet l k)) = l := by
  induction l with
  | nil => rfl
  | cons kv t ih =>
    obtain ⟨k, v⟩ := kv
    rw [List.map_cons, List.nodup_cons] at hn
    have hk : mapGet ((k, v) :: t) k = v := by simp [mapGet, List.find?]
    have ht : ∀ k2 ∈ t.map Prod.fst, mapGet ((k, v) :: t) k2 = mapGet t k2 := by
      intro k2 hk2
      have hne : (k == k2) = false := by
        refine beq_eq_false_iff_ne.mpr (fun he => hn.1 ?_)
        exact he ▸ hk2
      simp [mapGet, List.find?, hne]
    calc (((k, v) :: t).map Prod.fst).map (fun k2 => (k2, mapGet ((k, v) :: t) k2))
        = (k, mapGet ((k, v) :: t) k) ::
            (t.map Prod.fst).map (fun k2 => (k2, mapGet ((k, v) :: t) k2)) := by
          simp
      _ = (k, v) :: (t.map Prod.fst).map (fun k2 => (k2, mapGet t k2)) := by
          rw [hk]
          congr 1
          exact List.map_congr_left (fun k2 hk2 => by rw [ht k2 hk2])
      _ = (k, v) :: t := by rw [ih hn.2]

theorem sortedEntries_perm {l : List (String × Json)} (hn : (l.map Prod.fst).Nodup) :
    (sortedEntries l).Perm l := by
  unfold sortedEntries sortedKeys
  have h1 := (List.perm_insertionSort strLE (l.map Prod.fst)).map
    (fun k => (k, mapGet l k))
  rw [entries_of_keys hn] at h1
  exact h1

instance : IsTotal String strLE := ⟨fun a b => charsLE_total a.data b.data⟩

instance : IsTrans String strLE := ⟨fun _ _ _ => charsLE_trans⟩

theorem strData_inj : ∀ {a b : String}, a.data = b.data → a = b
  | ⟨_⟩, ⟨_⟩, h => congrArg String.mk h

theorem strLT_of_strLE_of_ne {a b : String} (h1 : strLE a b) (h2 : a ≠ b) : strLT a b :=
  charsLT_of_le_of_ne h1 (fun hd => h2 (strData_inj hd))

theorem sorted_strLT_of_sorted_strLE {l : List String} (hs : l.Sorted strLE)
    (hn : l.Nodup) : l.Sorted strLT :=
  hs.imp₂ (fun _ _ hle hne => strLT_of_strLE_of_ne hle hne) hn

theorem sorted_keyLT_of_sorted_keyLE {β : Type} {l : List (String × β)}
    (hs : l.Sorted keyLE) (hn : (l.map Prod.fst).Nodup) : l.Sorted keyLT := by
  have hn2 : l.Pairwise (fun a b : String × β => a.1 ≠ b.1) := List.pairwise_map.mp hn
  exact hs.imp₂ (fun _ _ hle hne => strLT_of_strLE_of_ne hle hne) hn2

theorem sortFields_eq_of_perm {β : Type} {l1 l2 : List (String × β)} (hp : l1.Perm l2)
    (hn : (l1.map Prod.fst).Nodup) : sortFields l1 = sortFields l2 := by
  have hperm : (sortFields l1).Perm (sortFields l2) :=
    (List.perm_insertionSort keyLE l1).trans
      (hp.trans (List.perm_insertionSort keyLE l2).symm)
  have hn1 : ((sortFields l1).map Prod.fst).Nodup :=
    (((List.perm_insertionSort keyLE l1).map Prod.fst).nodup_iff).mpr hn
  have hn2 : ((sortFields l2).map Prod.fst).Nodup :=
    ((hperm.map Prod.fst).nodup_iff).mp hn1
  exact List.eq_of_perm_of_sorted hperm
    (sorted_keyLT_of_sorted_keyLE (List.sorted_insertionSort keyLE l1) hn1)
    (sorted_keyLT_of_sorted_keyLE (List.sorted_insertionSort keyLE l2) hn2)

theorem map_fst_marshal (l : List (String × Json)) :
    (l.map (fun kv => (kv.1, goMarshal kv.2))).map Prod.fst = l.map Prod.fst := by
  simp [List.map_map, Function.comp]

theorem sortParams_eq_goMarshal {l : List (String × Json)} (hne : l ≠ [])
    (hn : (l.map Prod.fst).Nodup) : sortParams l = goMarshal (objOf l) := by
  have hlen : ¬ l.length = 0 := by simpa [List.length_eq_zero] using hne
  have hperm : ((sortedEntries l).map (fun kv => (kv.1, goMarshal kv.2))).Perm
      (l.map (fun kv => (kv.1, goMarshal kv.2))) := (sortedEntries_perm hn).map _
  have hnf : (((sortedEntries l).map (fun kv => (kv.1, goMarshal kv.2))).map Prod.fst).Nodup := by
    rw [map_fst_marshal]
    exact (((sortedEntries_perm hn).map Prod.fst).nodup_iff).mpr hn
  unfold sortParams
  rw [if_neg hlen, goMarshal_objOf, goMarshal_objOf, sortFields_eq_of_perm hperm hnf]

theorem sortParams_eq_of_perm {p1 p2 : List (String × Json)} (hp : p1.Perm p2)
    (hn : (p1.map Prod.fst).Nodup) : sortParams p1 = sortParams p2 := by
  by_cases he : p1 = []
  · subst he
    rw [hp.symm.eq_nil]
  · have hne2 : p2 ≠ [] := fun h => he (hp.trans (h ▸ List.Perm.refl _)).eq_nil
    have hn2 : (p2.map Prod.fst).Nodup := ((hp.map Prod.fst).nodup_iff).mp hn
    rw [sortParams_eq_goMarshal he hn, sortParams_eq_goMarshal hne2 hn2,
      goMarshal_objOf, goMarshal_objOf,
      sortFields_eq_of_perm (hp.map (fun kv => (kv.1, goMarshal kv.2)))
        (by rw [map_fst_marshal]; exact hn)]

/-- C2: a parameter map that is empty or absent canonicalizes to the
empty string, never to the two-character object braces and never to the
null literal. -/
theorem claim2_empty_params (params : List (String × Json)) (h : params.length = 0) :
    sortParams params = "" ∧ sortParams params ≠ "\x7b\x7d" ∧ sortParams params ≠ "null" := by
  unfold sortParams
  rw [if_pos h]
  exact ⟨rfl, by decide, by decide⟩

theorem claim2_witness :
    sortParams [] = "" ∧ sortParams [] ≠ "\x7b\x7d" ∧ sortParams [] ≠ "null" :=
  claim2_empty_params [] rfl

/-- C3: canonicalization is insertion-order independent: two parameter
maps holding the same key-value pairs in any order canonicalize to the
identical string, and the rebuilt map lists the top-level keys in strict
ascending code-point order. -/
theorem claim3_order_independent (p1 p2 : List (String × Json)) (hp : p1.Perm p2)
    (hn : (p1.map Prod.fst).Nodup) :
    sortParams p1 = sortParams p2 ∧ ((sortedEntries p1).map Prod.fst).Sorted strLT := by
  constructor
  · exact sortParams_eq_of_perm hp hn
  · have hkeys : (sortedEntries p1).map Prod.fst = sortedKeys p1 := by
      unfold sortedEntries
      rw [List.map_map,
        show (Prod.fst ∘ fun k => (k, mapGet p1 k)) = id from rfl, List.map_id]
    rw [hkeys]
    have hsle : (sortedKeys p1).Sorted strLE :=
      List.sorted_insertionSort strLE (p1.map Prod.fst)
    have hnd : (sortedKeys p1).Nodup :=
      ((List.perm_insertionSort strLE (p1.map Prod.fst)).nodup_iff).mpr hn
    exact sorted_strLT_of_sorted_strLE hsle hnd

theorem claim3_witness :
    sortParams [("b", Json.num 2), ("a", Json.num 1)] =
        sortParams [("a", Json.num 1), ("b", Json.num 2)] ∧
      ((sortedEntries [("b", Json.num 2), ("a", Json.num 1)]).map Prod.fst).Sorted strLT :=
  claim3_order_independent _ _ (by decide) (by decide)

/-- C7: the two concrete canonicalization vectors: a single-entry map
canonicalizes to its one-field object, and the three-entry send payload
canonicalizes, from any insertion order, to the object with keys
channel_id, receiver, template_params in that order. -/
theorem claim7_vectors :
    sortParams [("key", Json.str "value")] = "\x7b\"key\":\"value\"\x7d" ∧
    ∀ p : List (String × Json),
      p.Perm [("channel_id", Json.num 1), ("receiver", Json.str "13800138000"),
        ("template_params", objOf [("code", Json.str "123456")])] →
      sortParams p =
        "\x7b\"channel_id\":1,\"receiver\":\"13800138000\",\"template_params\":\x7b\"code\":\"123456\"\x7d\x7d" := by
  refine ⟨by decide, fun p hp => ?_⟩
  have hn : (p.map Prod.fst).Nodup :=
    ((hp.map Prod.fst).nodup_iff).mpr (by decide)
  rw [sortParams_eq_of_perm hp hn]
  decide

theorem claim7_witness :
    sortParams [("receiver", Json.str "13800138000"),
        ("template_params", objOf [("code", Json.str "123456")]), ("channel_id", Json.num 1)] =
      "\x7b\"channel_id\":1,\"receiver\":\"13800138000\",\"template_params\":\x7b\"code\":\"123456\"\x7d\x7d" :=
  claim7_vectors.2 _ (by decide)

/-- C10: the explicit sort-and-rebuild step of sortParams is
semantically redundant: on every non-empty parameter map the result
coincides with the direct JSON serialization of the original map, since
the encoder already emits map keys in sorted order. -/
theorem claim10_rebuild_redundant (params : List (String × Json)) (hne : params ≠ [])
    (hn : (params.map Prod.fst).Nodup) : sortParams params = goMarshal (objOf params) :=
  sortParams_eq_goMarshal hne hn

theorem claim10_witness :
    sortParams [("b", Json.str "y"), ("a", Json.num 3)] =
      goMarshal (objOf [("b", Json.str "y"), ("a", Json.num 3)]) :=
  claim10_rebuild_redundant _ (by decide) (by decide)

end MlievPush

namespace MlievPush

/-- C1: the signature is the lowercase hexadecimal HMAC-SHA256 digest,
keyed by the secret, of the plain undelimited concatenation of method,
path, canonical parameters, timestamp and nonce. -/
theorem claim1_signature_algorithm (method path : String) (params : List (String × Json))
    (timestamp nonce secret : String) :
    generateSignature method path params timestamp nonce secret =
      hexEncode (hmacSha256 (strBytes secret)
        (strBytes (method ++ path ++ sortParams params ++ timestamp ++ nonce))) :=
  rfl

/-! Lemmas for the signature format: the digest is 32 bytes, each below
256, and hexadecimal encoding turns them into 64 lowercase hex digits. -/

theorem sha256_length (msg : List Nat) : (sha256 msg).length = 32 := by
  simp [sha256, wordBytes]

theorem mem_wordBytes_lt {w x : Nat} (h : x ∈ wordBytes w) : x < 256 := by
  simp only [wordBytes, List.mem_cons, List.not_mem_nil, or_false] at h
  rcases h with rfl | rfl | rfl | rfl <;> exact Nat.mod_lt _ (by norm_num)

theorem mem_append_bound {x : Nat} {l1 l2 : List Nat} (h : x ∈ l1 ++ l2)
    (h1 : x ∈ l1 → x < 256) (h2 : x ∈ l2 → x < 256) : x < 256 := by
  rcases List.mem_append.mp h with h | h
  exacts [h1 h, h2 h]

theorem mem_sha256_lt {msg : List Nat} {b : Nat} (h : b ∈ sha256 msg) : b < 256 := by
  simp only [sha256] at h
  refine mem_append_bound h (fun h => ?_) mem_wordBytes_lt
  refine mem_append_bound h (fun h => ?_) mem_wordBytes_lt
  refine mem_append_bound h (fun h => ?_) mem_wordBytes_lt
  refine mem_append_bound h (fun h => ?_) mem_wordBytes_lt
  refine mem_append_bound h (fun h => ?_) mem_wordBytes_lt
  refine mem_append_bound h (fun h => ?_) mem_wordBytes_lt
  exact mem_append_bound h mem_wordBytes_lt mem_wordBytes_lt

theorem hmacSha256_length (key msg : List Nat) : (hmacSha256 key msg).length = 32 := by
  simp only [hmacSha256]
  exact sha256_length _

theorem mem_hmacSha256_lt {key msg : List Nat} {b : Nat} (h : b ∈ hmacSha256 key msg) :
    b < 256 := by
  simp only [hmacSha256] at h
  exact mem_sha256_lt h

/-- Whether a character is a lowercase hexadecimal digit. -/
def isLowerHexChar (c : Char) : Bool :=
  decide ((48 ≤ c.toNat ∧ c.toNat ≤ 57) ∨ (97 ≤ c.toNat ∧ c.toNat ≤ 102))

theorem hexDigitChar_isLowerHex {n : Nat} (h : n < 16) :
    isLowerHexChar (hexDigitChar n) = true := by
  interval_cases n <;> decide

theorem hexChars_length (bs : List Nat) : (hexChars bs).length = 2 * bs.length := by
  induction bs with
  | nil => rfl
  | cons b t ih => simp [hexChars, ih]; omega

theorem mem_hexChars_isLowerHex {bs : List Nat} (hb : ∀ b ∈ bs, b < 256) {c : Char}
    (hc : c ∈ hexChars bs) : isLowerHexChar c = true := by
  induction bs with
  | nil => simp [hexChars] at hc
  | cons b t ih =>
    have hblt : b < 256 := hb b (List.mem_cons_self b t)
    simp only [hexChars, List.mem_cons] at hc
    rcases hc with hc | hc | hc
    · exact hc ▸ hexDigitChar_isLowerHex (by omega)
    · exact hc ▸ hexDigitChar_isLowerHex (Nat.mod_lt _ (by norm_num))
    · exact ih (fun x hx => hb x (List.mem_cons_of_mem b hx)) hc

/-- C6: for every input the produced signature has exactly 64
characters, each a lowercase hexadecimal digit. -/
theorem claim6_signature_format (method path : String) (params : List (String × Json))
    (timestamp nonce secret : String) :
    (generateSignature method path params timestamp nonce secret).length = 64 ∧
    ∀ c ∈ (generateSignature method path params timestamp nonce secret).data,
      isLowerHexChar c = true := by
  constructor
  · show (hexChars _).length = 64
    rw [hexChars_length, hmacSha256_length]
  · intro c hc
    exact mem_hexChars_isLowerHex (fun b hb => mem_hmacSha256_lt hb) hc

/-! Lemmas for the error-message lookup table. -/

theorem lookup_eq_of_mem {l : List (Int × String)} (hn : (l.map Prod.fst).Nodup)
    {k : Int} {v : String} (hm : (k, v) ∈ l) : l.lookup k = some v := by
  induction l with
  | nil => simp at hm
  | cons kv t ih =>
    obtain ⟨k1, v1⟩ := kv
    rw [List.map_cons, List.nodup_cons] at hn
    rcases List.mem_cons.mp hm with heq | hmem
    · have h1 : k = k1 := congrArg Prod.fst heq
      have h2 : v = v1 := congrArg Prod.snd heq
      subst h1
      subst h2
      simp [List.lookup]
    · have hne : (k == k1) = false := by
        refine beq_eq_false_iff_ne.mpr (fun he => hn.1 ?_)
        subst he
        exact List.mem_map.mpr ⟨(k, v), hmem, rfl⟩
      simpa [List.lookup, hne] using ih hn.2 hmem

theorem lookup_eq_none_of_not_mem {l : List (Int × String)} {k : Int}
    (h : k ∉ l.map Prod.fst) : l.lookup k = none := by
  induction l with
  | nil => rfl
  | cons kv t ih =>
    obtain ⟨k1, v1⟩ := kv
    rw [List.map_cons, List.mem_cons, not_or] at h
    have hne : (k == k1) = false := beq_eq_false_iff_ne.mpr h.1
    simpa [List.lookup, hne] using ih h.2

/-- C9: GetErrorMessage returns the table entry for every code that is a
key of the static table, and the generic unknown-error text for every
other integer; being a total function it returns a value on every
input. -/
theorem claim9_error_message_lookup :
    (∀ (code : Int) (msg : String), (code, msg) ∈ errorCodeMessages →
      GetErrorMessage code = msg) ∧
    (∀ code : Int, code ∉ errorCodeMessages.map Prod.fst →
      GetErrorMessage code = "未知错误") := by
  constructor
  · intro code msg hm
    unfold GetErrorMessage
    rw [lookup_eq_of_mem (by decide) hm]
  · intro code hm
    unfold GetErrorMessage
    rw [lookup_eq_none_of_not_mem hm]

theorem claim9_witness :
    GetErrorMessage 20003 = "签名验证失败" ∧ GetErrorMessage 99999 = "未知错误" :=
  ⟨claim9_error_message_lookup.1 20003 "签名验证失败" (by decide),
   claim9_error_message_lookup.2 99999 (by decide)⟩

end MlievPush

namespace MlievPush

/-! Lemmas about the dispatcher. -/

theorem natDigitsRevGo_ne_nil (f n : Nat) : natDigitsRevGo (f + 1) n ≠ [] := by
  simp only [natDigitsRevGo]
  split <;> simp

theorem natRepr_length_pos (n : Nat) : 0 < (natRepr n).length := by
  show 0 < (natDigitsRevGo (n + 1) n).reverse.length
  rw [List.length_reverse]
  exact List.length_pos.mpr (natDigitsRevGo_ne_nil n n)

theorem intRepr_length_pos (n : Int) : 0 < (intRepr n).length := by
  unfold intRepr
  split
  · rw [String.length_append]
    have := natRepr_length_pos n.natAbs
    omega
  · exact natRepr_length_pos n.natAbs

/-- Go marshaling never produces empty bytes: every JSON value
serializes to a non-empty string. -/
theorem goMarshal_length_pos (j : Json) : 0 < (goMarshal j).length := by
  cases j with
  | null => decide
  | bool b => cases b <;> decide
  | num n => simpa [goMarshal] using intRepr_length_pos n
  | str s =>
    have h : goMarshal (Json.str s) = quoteString s := by simp [goMarshal]
    rw [h, quoteString, String.length_append, String.length_append]
    have e1 : ("\"" : String).length = 1 := rfl
    omega
  | arr xs =>
    have h : goMarshal (Json.arr xs) =
        "[" ++ String.intercalate "," (marshalElems xs) ++ "]" := by simp [goMarshal]
    rw [h, String.length_append, String.length_append]
    have e1 : ("[" : String).length = 1 := rfl
    omega
  | obj fs =>
    have h : goMarshal (Json.obj fs) =
        "\x7b" ++
          String.intercalate ","
            ((sortFields (marshalFields fs)).map (fun kv => quoteString kv.1 ++ ":" ++ kv.2)) ++
          "\x7d" := by simp [goMarshal]
    rw [h, String.length_append, String.length_append]
    have e1 : ("\x7b" : String).length = 1 := rfl
    omega

theorem doRequestSend_fst (c : Client) (method path bodyBytes : String)
    (params : List (String × Json)) (ts nn : String) (outcome : ExchangeOutcome) :
    (doRequestSend c method path bodyBytes params ts nn outcome).1 =
      some (buildRequest c method path bodyBytes params ts nn) := by
  cases outcome with
  | transportError => rfl
  | readBodyError => rfl
  | badBody => rfl
  | response body =>
    rcases hdec : decodeResponse body with _ | r
    · simp [doRequestSend, hdec]
    · by_cases h : r.code = 0 <;> simp [doRequestSend, hdec, h]

/-- C5: across the calls the public operations make, the content-type
header of the built outbound request is attached exactly when the
request carries a non-empty body: both are present on the two POST
operations and both are absent on the GET operation. -/
theorem claim5_content_type_iff_body (c : Client) (payload : Json) (ts nn taskID : String)
    (outcome : ExchangeOutcome) (hr : HttpRequest) :
    ((doRequest c "POST" "/api/v1/messages" (some payload) ts nn outcome).1 = some hr →
      hr.contentType.isSome = hr.body.isSome) ∧
    ((doRequest c "POST" "/api/v1/messages/batch" (some payload) ts nn outcome).1 = some hr →
      hr.contentType.isSome = hr.body.isSome) ∧
    ((doRequest c "GET" ("/api/v1/messages/" ++ taskID) none ts nn outcome).1 = some hr →
      hr.contentType = none ∧ hr.body = none) := by
  have hpost : ∀ path, (doRequest c "POST" path (some payload) ts nn outcome).1 = some hr →
      hr.contentType.isSome = hr.body.isSome := by
    intro path h
    rcases hpp : paramsOfBody payload with _ | params
    · simp [doRequest, hpp] at h
    · simp only [doRequest, hpp] at h
      rw [doRequestSend_fst] at h
      obtain rfl := Option.some.inj h
      have hb := goMarshal_length_pos payload
      simp [buildRequest, hb]
  refine ⟨hpost _, hpost _, ?_⟩
  intro h
  simp only [doRequest] at h
  rw [doRequestSend_fst] at h
  obtain rfl := Option.some.inj h
  exact ⟨rfl, rfl⟩

theorem claim5_witness :
    ((buildRequest ⟨"https://u", "app", "sec"⟩ "POST" "/api/v1/messages"
        (goMarshal (objOf [("a", Json.num 1)])) [("a", Json.num 1)] "t" "n").contentType.isSome =
      (buildRequest ⟨"https://u", "app", "sec"⟩ "POST" "/api/v1/messages"
        (goMarshal (objOf [("a", Json.num 1)])) [("a", Json.num 1)] "t" "n").body.isSome) ∧
    ((buildRequest ⟨"https://u", "app", "sec"⟩ "GET" ("/api/v1/messages/" ++ "T1")
        "" [] "t" "n").contentType = none ∧
      (buildRequest ⟨"https://u", "app", "sec"⟩ "GET" ("/api/v1/messages/" ++ "T1")
        "" [] "t" "n").body = none) :=
  ⟨(claim5_content_type_iff_body ⟨"https://u", "app", "sec"⟩ (objOf [("a", Json.num 1)])
      "t" "n" "T1" ExchangeOutcome.transportError
      (buildRequest ⟨"https://u", "app", "sec"⟩ "POST" "/api/v1/messages"
        (goMarshal (objOf [("a", Json.num 1)])) [("a", Json.num 1)] "t" "n")).1 rfl,
   (claim5_content_type_iff_body ⟨"https://u", "app", "sec"⟩ (objOf [("a", Json.num 1)])
      "t" "n" "T1" ExchangeOutcome.transportError
      (buildRequest ⟨"https://u", "app", "sec"⟩ "GET" ("/api/v1/messages/" ++ "T1")
        "" [] "t" "n")).2.2 rfl⟩

/-- C4: whenever the decoded response envelope carries a nonzero status
code, each public operation returns the business error holding exactly
that code and the envelope's message, and no result value. -/
theorem claim4_business_error (c : Client) (payload : Json) (ts nn taskID : String)
    (body : Json) (resp : Response) (hp : paramsOfBody payload ≠ none)
    (hdec : decodeResponse body = some resp) (hcode : resp.code ≠ 0) :
    SendMessage c payload ts nn (.response body) =
        (none, some (.apiError resp.code resp.message)) ∧
    SendBatch c payload ts nn (.response body) =
        (none, some (.apiError resp.code resp.message)) ∧
    QueryTask c taskID ts nn (.response body) =
        (none, some (.apiError resp.code resp.message)) := by
  rcases hpp : paramsOfBody payload with _ | params
  · exact absurd hpp hp
  · refine ⟨?_, ?_, ?_⟩ <;>
      simp [SendMessage, SendBatch, QueryTask, doRequest, doRequestSend, hpp, hdec, hcode]

theorem claim4_witness :
    SendMessage ⟨"https://u", "app", "sec"⟩ (objOf [("channel_id", Json.num 1)]) "1700000000"
        "n-1" (.response (objOf [("code", Json.num 20003),
          ("message", Json.str "signature invalid")])) =
      (none, some (.apiError 20003 "signature invalid")) ∧
    SendBatch ⟨"https://u", "app", "sec"⟩ (objOf [("channel_id", Json.num 1)]) "1700000000"
        "n-1" (.response (objOf [("code", Json.num 20003),
          ("message", Json.str "signature invalid")])) =
      (none, some (.apiError 20003 "signature invalid")) ∧
    QueryTask ⟨"https://u", "app", "sec"⟩ "T1" "1700000000" "n-1"
        (.response (objOf [("code", Json.num 20003),
          ("message", Json.str "signature invalid")])) =
      (none, some (.apiError 20003 "signature invalid")) :=
  claim4_business_error ⟨"https://u", "app", "sec"⟩ (objOf [("channel_id", Json.num 1)])
    "1700000000" "n-1" "T1"
    (objOf [("code", Json.num 20003), ("message", Json.str "signature invalid")])
    ⟨20003, "signature invalid", none⟩ (by decide) (by decide) (by decide)

theorem doRequestSend_err {c : Client} {method path bodyBytes : String}
    {params : List (String × Json)} {ts nn : String} {outcome : ExchangeOutcome}
    {req : Option HttpRequest} {r : Option Response} {err : GoError}
    (h : doRequestSend c method path bodyBytes params ts nn outcome = (req, r, some err)) :
    isAPIError err = true ↔
      ∃ (body : Json) (resp : Response), outcome = .response body ∧
        decodeResponse body = some resp ∧ resp.code ≠ 0 ∧
        err = .apiError resp.code resp.message := by
  cases outcome with
  | transportError =>
    simp only [doRequestSend, Prod.mk.injEq, Option.some.injEq] at h
    obtain ⟨-, -, rfl⟩ := h
    constructor
    · intro hapi
      simp [isAPIError] at hapi
    · rintro ⟨body, resp, hbo, -⟩
      cases hbo
  | readBodyError =>
    simp only [doRequestSend, Prod.mk.injEq, Option.some.injEq] at h
    obtain ⟨-, -, rfl⟩ := h
    constructor
    · intro hapi
      simp [isAPIError] at hapi
    · rintro ⟨body, resp, hbo, -⟩
      cases hbo
  | badBody =>
    simp only [doRequestSend, Prod.mk.injEq, Option.some.injEq] at h
    obtain ⟨-, -, rfl⟩ := h
    constructor
    · intro hapi
      simp [isAPIError] at hapi
    · rintro ⟨body, resp, hbo, -⟩
      cases hbo
  | response body =>
    rcases hdec : decodeResponse body with _ | resp
    · simp only [doRequestSend, hdec, Prod.mk.injEq, Option.some.injEq] at h
      obtain ⟨-, -, rfl⟩ := h
      constructor
      · intro hapi
        simp [isAPIError] at hapi
      · rintro ⟨body2, resp2, hbo, hdec2, -⟩
        obtain rfl : body = body2 := by
          simpa using hbo
        rw [hdec] at hdec2
        cases hdec2
    · by_cases hc : resp.code = 0
      · simp only [doRequestSend, hdec, hc, ne_eq, not_true_eq_false, if_false,
          Prod.mk.injEq] at h
        cases h.2.2
      · simp only [doRequestSend, hdec, if_pos hc, Prod.mk.injEq, Option.some.injEq] at h
        obtain ⟨-, -, rfl⟩ := h
        constructor
        · intro _
          exact ⟨body, resp, rfl, hdec, hc, rfl⟩
        · intro _
          simp [isAPIError]

/-- C8: an error value is a business error in the sense of IsAPIError
exactly when it is the apiError variant, and every error doRequest
produces is a business error exactly when it arose from a decoded
envelope with a nonzero code; serialization, transport and decode
failures are never classified as business errors. -/
theorem claim8_error_discrimination :
    (∀ e : GoError, isAPIError e = true ↔ ∃ code msg, e = GoError.apiError code msg) ∧
    (∀ (c : Client) (method path : String) (reqData : Option Json) (ts nn : String)
      (outcome : ExchangeOutcome) (req : Option HttpRequest) (r : Option Response)
      (err : GoError),
      doRequest c method path reqData ts nn outcome = (req, r, some err) →
      (isAPIError err = true ↔
        ∃ (body : Json) (resp : Response), outcome = .response body ∧
          decodeResponse body = some resp ∧ resp.code ≠ 0 ∧
          err = .apiError resp.code resp.message)) := by
  constructor
  · intro e
    cases e <;> simp [isAPIError]
  · intro c method path reqData ts nn outcome req r err h
    cases reqData with
    | none =>
      exact doRequestSend_err (by simpa [doRequest] using h)
    | some j =>
      rcases hpp : paramsOfBody j with _ | params
      · simp only [doRequest, hpp, Prod.mk.injEq, Option.some.injEq] at h
        obtain ⟨-, -, rfl⟩ := h
        constructor
        · intro hapi
          simp [isAPIError] at hapi
        · rintro ⟨body, resp, hbo, -, -, herr⟩
          cases herr
      · simp only [doRequest, hpp] at h
        exact doRequestSend_err h

theorem claim8_witness :
    isAPIError GoError.transportError = true ↔
      ∃ (body : Json) (resp : Response),
        ExchangeOutcome.transportError = ExchangeOutcome.response body ∧
        decodeResponse body = some resp ∧ resp.code ≠ 0 ∧
        GoError.transportError = GoError.apiError resp.code resp.message :=
  claim8_error_discrimination.2 ⟨"https://u", "app", "sec"⟩ "GET" "/p" none "t" "n"
    ExchangeOutcome.transportError
    (some (buildRequest ⟨"https://u", "app", "sec"⟩ "GET" "/p" "" [] "t" "n")) none
    GoError.transportError rfl

end MlievPush
